import Mathlib

/-!
Verification development for the lotto-prediction-tool repository.

The Python modules `src/signals.py`, `src/combiner.py`, `src/config.py` and
`src/line_mode.py` are shallowly embedded below.  Python floats are modelled
by `ℚ` (exact rational arithmetic), Python dicts by insertion-ordered
association lists, pandas data frames by lists of rows plus a flag recording
whether the optional `bonus` column exists, Python exceptions by `Except`,
and the process-wide `random` module by an explicitly threaded generator
state with a simple linear-congruential step standing in for the Mersenne
twister (the claims under study depend only on the generator being a
deterministic state machine producing values in `[0,1)`, not on its exact
stream).  `math.exp` is modelled by a computable strictly positive rational
function `pyexp`, which preserves the one property the code relies on
(positivity of every weight).
-/

namespace Lotto

/-- One row of the validated draw table: `lottery` key, the `numbers` list,
and the optional `bonus` cell (`none` models a missing / non-list cell,
matching the `isinstance(x, list)` guard in `line_mode.py`). -/
structure Row where
  lottery : String
  numbers : List Int
  bonus : Option (List Int)
deriving DecidableEq, Repr

/-- The pandas data frame: its rows plus whether a `bonus` column exists. -/
structure DataFrame where
  rows : List Row
  hasBonusCol : Bool
deriving DecidableEq, Repr

/-- A lottery profile from `config.LOTTERY_PROFILES`.  Profiles without a
bonus pool carry zeroed bonus fields (the Python dicts simply omit them and
the code never reads them when `bonus` is false). -/
structure Profile where
  min : Int
  max : Int
  numbers_per_draw : Nat
  bonus : Bool
  bonus_min : Int
  bonus_max : Int
  bonus_count : Nat
deriving DecidableEq, Repr

/-- `config.LOTTERY_PROFILES` (the four syntactically valid entries). -/
def LOTTERY_PROFILES (lottery : String) : Option Profile :=
  if lottery = "irish_lotto" then some ⟨1, 47, 6, false, 0, 0, 0⟩
  else if lottery = "daily_million" then some ⟨1, 39, 6, false, 0, 0, 0⟩
  else if lottery = "uk_lotto" then some ⟨1, 59, 6, false, 0, 0, 0⟩
  else if lottery = "euromillions" then some ⟨1, 50, 5, true, 1, 12, 2⟩
  else none

/-- The per-preset tuning constants of `line_mode.PRESET_PARAMS`. -/
structure PresetParams where
  temperature : ℚ
  randomness_blend : ℚ
  pair_strength : ℚ
deriving DecidableEq, Repr

/-- `line_mode.PRESET_PARAMS` as a lookup (`none` models the `KeyError` /
unknown-preset case, which `generate_lines` rules out up front). -/
def PRESET_PARAMS (preset : String) : Option PresetParams :=
  if preset = "conservative" then some ⟨9/10, 45/100, 20/100⟩
  else if preset = "balanced" then some ⟨12/10, 25/100, 35/100⟩
  else if preset = "aggressive" then some ⟨17/10, 10/100, 60/100⟩
  else none

/-- Signal weights from `config.py`. -/
def WEIGHT_SHORT_TERM : ℚ := 35/100

/-- Signal weight for the long-term trend, from `config.py`. -/
def WEIGHT_LONG_TERM : ℚ := 25/100

/-- Signal weight for hotness, from `config.py`. -/
def WEIGHT_HOTNESS : ℚ := 20/100

/-- Short-term window size from `config.py`. -/
def SHORT_TERM_WINDOW : Nat := 20

/-- Python `range(lo, hi + 1)` as a list of integers. -/
def rangeList (lo hi : Int) : List Int :=
  (List.range (hi + 1 - lo).toNat).map (fun i : Nat => lo + (i : Int))

/-- Insertion-ordered dict lookup (`d.get(k)` / `k in d`). -/
def lookup? {κ α : Type} [DecidableEq κ] (d : List (κ × α)) (k : κ) : Option α :=
  (d.find? (fun p => p.1 = k)).map (·.2)

/-- Python `list(dict.fromkeys(l))`: deduplicate keeping the first
occurrence of each element, preserving order. -/
def dedupFirstAux : List Int → List Int → List Int
  | [], _ => []
  | x :: xs, seen =>
    if x ∈ seen then dedupFirstAux xs seen else x :: dedupFirstAux xs (x :: seen)

/-- See `dedupFirstAux`. -/
def dedupFirst (l : List Int) : List Int := dedupFirstAux l []

/-- Python `sorted(l)` on integer lists. -/
def pySorted (l : List Int) : List Int := List.insertionSort (fun a b => a ≤ b) l

/-- Python `sorted(set(l))`. -/
def sortedUnique (l : List Int) : List Int := pySorted (dedupFirst l)

/-- Computable strictly positive stand-in for `math.exp`: total, monotone,
`pyexp 0 = 1`, and always `> 0` — the only facts about `math.exp` that the
sampling code relies on. -/
def pyexp (x : ℚ) : ℚ := if 0 ≤ x then 1 + x else 1 / (1 - x)

/-- The state of the process-wide `random` generator. -/
structure Rng where
  state : Nat
deriving DecidableEq, Repr

/-- One step of the generator (a 64-bit linear-congruential step standing in
for the Mersenne twister update). -/
def rngStep (g : Rng) : Rng :=
  ⟨(g.state * 6364136223846793005 + 1442695040888963407) % (2 ^ 64)⟩

/-- `random.seed(s)`: the generator state becomes a function of `s` alone,
independent of the previous state. -/
def seedRng (s : Nat) : Rng := ⟨(2 * s + 1) % (2 ^ 64)⟩

/-- `random.random()`: a rational in `[0, 1)` plus the new state. -/
def randFloat (g : Rng) : ℚ × Rng :=
  let g2 := rngStep g
  (((g2.state % 2 ^ 53 : Nat) : ℚ) / 2 ^ 53, g2)

/-- `random._randbelow(n)` (used by `random.choice` and `random.shuffle`):
an index in `[0, n)` plus the new state. -/
def randBelow (n : Nat) (g : Rng) : Nat × Rng :=
  let g2 := rngStep g
  (g2.state % n, g2)

/-- Swap two positions of a list (helper for the shuffle model). -/
def listSwap (l : List Int) (i j : Nat) : List Int :=
  let a := l.getD i 0
  let b := l.getD j 0
  (l.set i b).set j a

/-- Fisher–Yates walk of `random.shuffle`: for `i` from `len-1` down to `1`,
swap position `i` with a random position `j ≤ i`. -/
def pyShuffleAux : List Int → Nat → Rng → List Int × Rng
  | l, 0, g => (l, g)
  | l, k + 1, g =>
    let (j, g2) := randBelow (k + 2) g
    pyShuffleAux (listSwap l (k + 1) j) k g2

/-- `random.shuffle(l)` (returning the shuffled list). -/
def pyShuffle (l : List Int) (g : Rng) : List Int × Rng :=
  pyShuffleAux l (l.length - 1) g

/-- `df.tail(k)`: the last `k` rows. -/
def pyTail (rows : List Row) (k : Nat) : List Row := rows.drop (rows.length - k)

/-- `Counter` total for `n` over the `numbers` column of `rows` (counting
every occurrence, as `Counter.update` does). -/
def counterGet (rows : List Row) (n : Int) : Nat :=
  (rows.map (fun r => r.numbers.count n)).sum

/-- `signals.short_term_trend_signal`: frequency deviation over the last
`SHORT_TERM_WINDOW` draws.  `numbers_per_draw` is the length of the first
recent row's list (0 on an empty frame, where Python's `iloc[0]` raises).
Modelling caveat: when `expected = 0` — reachable when the first recent
row's `numbers` list is empty, e.g. a missing bonus cell mapped to `[]` in
the bonus pipeline — Python raises `ZeroDivisionError`, while this total ℚ
embedding yields 0 scores (`x / 0 = 0`).  Theorems about
`generate_lines`'s error behaviour therefore exclude such histories by
hypothesis (see `generate_lines_ok_iff`) instead of relying on this
collapse. -/
def short_term_trend_signal (rows : List Row) (min_number max_number : Int) :
    List (Int × ℚ) :=
  let recent := pyTail rows SHORT_TERM_WINDOW
  let total_draws : ℚ := (recent.length : ℚ)
  let numbers_per_draw : ℚ :=
    (((recent.headD ⟨"", [], none⟩).numbers.length : Nat) : ℚ)
  let expected : ℚ := total_draws * numbers_per_draw / ((max_number : ℚ) - (min_number : ℚ) + 1)
  (rangeList min_number max_number).map (fun n =>
    let observed : ℚ := ((counterGet recent n : Nat) : ℚ)
    (n, (observed - expected) / expected))

/-- `signals.long_term_trend_signal`: same deviation over the whole
history.  The same modelling caveat as `short_term_trend_signal` applies:
`expected = 0` (first row's `numbers` empty) is a `ZeroDivisionError` in
Python but yields 0 scores here, and is excluded by hypothesis in the
theorems that depend on `generate_lines`'s error behaviour. -/
def long_term_trend_signal (rows : List Row) (min_number max_number : Int) :
    List (Int × ℚ) :=
  let total_draws : ℚ := (rows.length : ℚ)
  let numbers_per_draw : ℚ :=
    (((rows.headD ⟨"", [], none⟩).numbers.length : Nat) : ℚ)
  let expected : ℚ := total_draws * numbers_per_draw / ((max_number : ℚ) - (min_number : ℚ) + 1)
  (rangeList min_number max_number).map (fun n =>
    let observed : ℚ := ((counterGet rows n : Nat) : ℚ)
    (n, (observed - expected) / expected))

/-- Index of the last row whose `numbers` contain `n` (the `last_seen` dict
of `signals.hot_cold_gap_signal`, where later draws overwrite earlier ones). -/
def lastSeen (rows : List Row) (n : Int) : Option Nat :=
  ((rows.enum.filter (fun p => n ∈ p.2.numbers)).map (·.1)).getLast?

/-- `signals.hot_cold_gap_signal`: normalized gap since last appearance. -/
def hot_cold_gap_signal (rows : List Row) (min_number max_number : Int) :
    List (Int × ℚ) :=
  let total_draws := rows.length
  let gaps : List (Int × Nat) :=
    (rangeList min_number max_number).map (fun n =>
      match lastSeen rows n with
      | some idx => (n, total_draws - idx - 1)
      | none => (n, total_draws))
  let m : Nat := ((gaps.map (·.2)).max?).getD 0
  let max_gap : Nat := if m = 0 then 1 else m
  gaps.map (fun p => (p.1, ((p.2 : ℚ) / (max_gap : ℚ))))

/-- `combiner._normalize`: rescale to `[-1, 1]` by the max absolute value
(`or 1.0` guards the all-zero case); an empty mapping is returned as is. -/
def _normalize (scores : List (Int × ℚ)) : List (Int × ℚ) :=
  match scores with
  | [] => []
  | _ =>
    let m : ℚ := ((scores.map (fun p => |p.2|)).max?).getD 0
    let max_abs : ℚ := if m = 0 then 1 else m
    scores.map (fun p => (p.1, p.2 / max_abs))

/-- The per-number output cell of `combiner.combine_signals`. -/
structure Score where
  score : ℚ
  confidence : ℚ
deriving DecidableEq, Repr

/-- `combiner.combine_signals`: normalize the three signals, then for every
key of the (normalized) short-term mapping take the weighted sum, apply the
preset's dominance shaping and compute the confidence.  Iteration is over
the short-term mapping only, exactly as `for n in short_term` does. -/
def combine_signals (short_term long_term hot_cold : List (Int × ℚ))
    (preset : String) : List (Int × Score) :=
  let st := _normalize short_term
  let lt := _normalize long_term
  let hc := _normalize hot_cold
  let dominance : ℚ :=
    if preset = "conservative" then 7/10
    else if preset = "aggressive" then 14/10
    else 1
  let randomness_damp : ℚ :=
    if preset = "conservative" then 5/10
    else if preset = "aggressive" then 12/10
    else 1
  st.map (fun p =>
    let n := p.1
    let raw0 : ℚ :=
      WEIGHT_SHORT_TERM * ((lookup? st n).getD 0) +
      WEIGHT_LONG_TERM * ((lookup? lt n).getD 0) +
      WEIGHT_HOTNESS * ((lookup? hc n).getD 0)
    let raw : ℚ :=
      if preset = "aggressive" then raw0 * dominance
      else max (min raw0 dominance) (-dominance)
    let confidence : ℚ := min (|raw| * randomness_damp) 1
    (n, ⟨raw, confidence⟩))

/-- `line_mode._build_combined_for_pool`: the three signals fed through the
combiner. -/
def _build_combined_for_pool (rows : List Row) (min_n max_n : Int)
    (preset : String) : List (Int × Score) :=
  combine_signals
    (short_term_trend_signal rows min_n max_n)
    (long_term_trend_signal rows min_n max_n)
    (hot_cold_gap_signal rows min_n max_n)
    preset

/-- `line_mode._scores_to_weights`: exponential shaping by the preset
temperature, multiplicative pair boost, then blending with uniform weight 1.
The preset lookup performed by the source is embedded in `PRESET_PARAMS`;
this function receives the looked-up record.  A missing `combined` entry is
read as score 0 (the callers always pass a table covering the pool). -/
def _scores_to_weights (combined : List (Int × Score)) (candidates : List Int)
    (params : PresetParams) (pair_boosts : List (Int × ℚ)) : List ℚ :=
  candidates.map (fun n =>
    let score := ((lookup? combined n).getD ⟨0, 0⟩).score
    let w := pyexp (score * params.temperature)
    let w2 :=
      match lookup? pair_boosts n with
      | some b => w * (1 + b)
      | none => w
    (1 - params.randomness_blend) * w2 + params.randomness_blend * 1)

/-- The cumulative-weight scan of `_weighted_choice_no_replace`:
`upto += w; if upto >= r: return item`. -/
def cumulativePick : List (Int × ℚ) → ℚ → ℚ → Option Int
  | [], _, _ => none
  | (c, w) :: rest, upto, r =>
    if upto + w ≥ r then some c else cumulativePick rest (upto + w) r

/-- `line_mode._weighted_choice_no_replace`: if the total weight is
non-positive fall back to `random.choice`; otherwise invert the cumulative
weights against `random.random() * total`, returning the last candidate if
the scan falls through.  `none` models the `IndexError` that Python's
`random.choice` / `candidates[-1]` raise on an empty candidate list. -/
def _weighted_choice_no_replace (candidates : List Int) (weights : List ℚ)
    (g : Rng) : Option Int × Rng :=
  let total := weights.sum
  if total ≤ 0 then
    (candidates.get? (randBelow candidates.length g).1, (randBelow candidates.length g).2)
  else
    match cumulativePick (candidates.zip weights) 0 ((randFloat g).1 * total) with
    | some c => (some c, (randFloat g).2)
    | none => (candidates.getLast?, (randFloat g).2)

/-- `line_mode._passes_balance`: parity and midpoint-split checks, applied
only when the selection has at least 6 numbers. -/
def _passes_balance (numbers : List Int) (min_n max_n : Int) : Bool :=
  let k := numbers.length
  let odds := (numbers.filter (fun n => n % 2 = 1)).length
  if k ≥ 6 ∧ (odds < 2 ∨ odds > 4) then false
  else
    let midpoint : ℚ := ((min_n : ℚ) + (max_n : ℚ)) / 2
    let low := (numbers.filter (fun n => (n : ℚ) ≤ midpoint)).length
    if k ≥ 6 ∧ (low < 2 ∨ low > 4) then false
    else true

/-- `line_mode._validate_locks`: duplicates, then count, then range. -/
def _validate_locks (locked : List Int) (profile : Profile) : Except String Unit :=
  if (dedupFirst locked).length ≠ locked.length then
    Except.error "Locked numbers contain duplicates"
  else if locked.length > profile.numbers_per_draw then
    Except.error "Too many locked numbers"
  else
    match locked.find? (fun n => ¬ (profile.min ≤ n ∧ n ≤ profile.max)) with
    | some _ => Except.error "Locked number out of range"
    | none => Except.ok ()

/-- `itertools.combinations(l, 2)`: ordered pairs of positions `i < j`. -/
def pairsOf : List Int → List (Int × Int)
  | [] => []
  | x :: xs => (xs.map (fun y => (x, y))) ++ pairsOf xs

/-- Whether `min_n <= n <= max_n` (the range guards of
`_compute_pair_lifts`). -/
def inRange (min_n max_n n : Int) : Bool := min_n ≤ n ∧ n ≤ max_n

/-- The in-range pairs contributed by one row: `combinations(sorted(set(
nums)), 2)` filtered by the range guard. -/
def rowPairs (min_n max_n : Int) (r : Row) : List (Int × Int) :=
  (pairsOf (sortedUnique r.numbers)).filter
    (fun p => inRange min_n max_n p.1 ∧ inRange min_n max_n p.2)

/-- `d[key] = d.get(key, 0) + 1` on an insertion-ordered dict. -/
def dincr (d : List ((Int × Int) × Nat)) (k : Int × Int) :
    List ((Int × Int) × Nat) :=
  if (d.find? (fun e => e.1 = k)).isSome then
    d.map (fun e => if e.1 = k then (e.1, e.2 + 1) else e)
  else d ++ [(k, 1)]

/-- The `pair_counts` dict of `_compute_pair_lifts` after folding over all
rows. -/
def pairCounts (min_n max_n : Int) (rows : List Row) :
    List ((Int × Int) × Nat) :=
  rows.foldl (fun d r => (rowPairs min_n max_n r).foldl dincr d) []

/-- The `indiv` per-draw appearance count of `_compute_pair_lifts`: the
number of rows whose distinct numbers contain `n` (queried only at in-range
numbers, where it coincides with the guarded dict of the source). -/
def indivCount (rows : List Row) (n : Int) : Nat :=
  (rows.filter (fun r => n ∈ sortedUnique r.numbers)).length

/-- The per-pair formula of `_compute_pair_lifts`:
`min(max(0, observed / (T * pa * pb + 1e-9) - 1), 2.0)`. -/
def liftExcess (total_draws pa pb observed : ℚ) : ℚ :=
  let expected := total_draws * pa * pb
  let lift := observed / (expected + 1 / 1000000000)
  min (max 0 (lift - 1)) 2

/-- `line_mode._compute_pair_lifts`: empty on zero draws, otherwise the
`pairCounts` dict mapped through `liftExcess` with `p(n) = indiv(n)/T`. -/
def _compute_pair_lifts (rows : List Row) (min_n max_n : Int) :
    List ((Int × Int) × ℚ) :=
  let total_draws := rows.length
  if total_draws = 0 then []
  else
    (pairCounts min_n max_n rows).map (fun e =>
      let pa : ℚ := (indivCount rows e.1.1 : ℚ) / (total_draws : ℚ)
      let pb : ℚ := (indivCount rows e.1.2 : ℚ) / (total_draws : ℚ)
      (e.1, liftExcess (total_draws : ℚ) pa pb (e.2 : ℚ)))

/-- `line_mode._pair_boosts_from_selected`: for each candidate, sum the
lifts against the already selected numbers under the canonicalized `(a, b)`
key with `a < b`; only strictly positive totals enter the dict. -/
def _pair_boosts_from_selected (selected candidates : List Int)
    (pair_lifts : List ((Int × Int) × ℚ)) (params : PresetParams) :
    List (Int × ℚ) :=
  let strength := params.pair_strength
  candidates.filterMap (fun c =>
    let total : ℚ := (selected.map (fun s =>
      let key := if s < c then (s, c) else (c, s)
      (lookup? pair_lifts key).getD 0)).sum
    if 0 < total then some (c, total * strength) else none)

/-- The inner `while len(selected) < count` loop of
`_generate_single_line` (also reused verbatim by the bonus sampler with
`use_pairs = false`): recompute pair boosts and weights after every pick,
draw one candidate, move it from `remaining` to `selected`.  The fuel is
`count - len(selected)`, which the loop decreases by exactly one per
iteration; `none` propagates the `IndexError` of an exhausted pool. -/
def pickN (combined : List (Int × Score)) (params : PresetParams)
    (pair_lifts : List ((Int × Int) × ℚ)) (use_pairs : Bool) :
    Nat → List Int → List Int → Rng → Option (List Int) × Rng
  | 0, selected, _, g => (some selected, g)
  | fuel + 1, selected, remaining, g =>
    let pair_boosts :=
      if use_pairs ∧ ¬ selected.isEmpty then
        _pair_boosts_from_selected selected remaining pair_lifts params
      else []
    let weights := _scores_to_weights combined remaining params pair_boosts
    match _weighted_choice_no_replace remaining weights g with
    | (none, g2) => (none, g2)
    | (some pick, g2) =>
      pickN combined params pair_lifts use_pairs fuel
        (selected ++ [pick]) (remaining.erase pick) g2

/-- The `while attempts < 200` retry loop of `_generate_single_line`:
each attempt reseeds `selected` with the deduplicated locks and rebuilds the
line; on balance failure it retries until the budget runs out, and then
returns the last generated selection. -/
def singleLineAttempts (combined : List (Int × Score)) (min_n max_n : Int)
    (count : Nat) (params : PresetParams) (locked : List Int)
    (enforce_balance : Bool) (pair_lifts : List ((Int × Int) × ℚ))
    (use_pairs : Bool) : Nat → Rng → Option (List Int) × Rng
  | 0, g => (none, g)
  | fuel + 1, g =>
    let selected0 := dedupFirst locked
    let remaining0 := (rangeList min_n max_n).filter (fun n => ¬ n ∈ selected0)
    match pickN combined params pair_lifts use_pairs
        (count - selected0.length) selected0 remaining0 g with
    | (none, g2) => (none, g2)
    | (some sel, g2) =>
      if enforce_balance then
        if _passes_balance sel min_n max_n then (some sel, g2)
        else if fuel = 0 then (some sel, g2)
        else singleLineAttempts combined min_n max_n count params locked
          enforce_balance pair_lifts use_pairs fuel g2
      else (some sel, g2)

/-- `line_mode._generate_single_line`: the retry loop with a budget of 200
attempts. -/
def _generate_single_line (combined : List (Int × Score)) (min_n max_n : Int)
    (count : Nat) (params : PresetParams) (locked : List Int)
    (enforce_balance : Bool) (pair_lifts : List ((Int × Int) × ℚ))
    (use_pairs : Bool) (g : Rng) : Option (List Int) × Rng :=
  singleLineAttempts combined min_n max_n count params locked
    enforce_balance pair_lifts use_pairs 200 g

/-- `line_mode._generate_bonus_numbers`.  The two fallback branches return
a shuffled prefix of the bonus pool.  The bonus-history branch builds the
combined table, runs the same sampling loop as `_generate_single_line`'s
inner loop (no pair boosts) — and then falls off the end of the Python
function, which therefore returns `None` (`Except.ok none` here), despite
its `-> List[int]` annotation.  `Except.error` models an escaping
exception. -/
def _generate_bonus_numbers (df_l : List Row) (hasBonusCol : Bool)
    (profile : Profile) (preset : String) (params : PresetParams) (g : Rng) :
    Except String (Option (List Int)) × Rng :=
  let bonus_count := profile.bonus_count
  let bonus_min := profile.bonus_min
  let bonus_max := profile.bonus_max
  if ¬ hasBonusCol then
    let (pool, g2) := pyShuffle (rangeList bonus_min bonus_max) g
    (Except.ok (some (pool.take bonus_count)), g2)
  else
    let df_b := df_l.map (fun r => { r with numbers := r.bonus.getD [] })
    if (df_b.map (fun r => r.numbers.length)).sum = 0 then
      let (pool, g2) := pyShuffle (rangeList bonus_min bonus_max) g
      (Except.ok (some (pool.take bonus_count)), g2)
    else
      let combined_bonus := _build_combined_for_pool df_b bonus_min bonus_max preset
      match pickN combined_bonus params [] false bonus_count []
          (rangeList bonus_min bonus_max) g with
      | (none, g2) => (Except.error "IndexError", g2)
      | (some _, g2) => (Except.ok none, g2)

/-- One generated line: `{"numbers": [...], "bonus": [...]}`. -/
structure GenLine where
  numbers : List Int
  bonus : List Int
deriving DecidableEq, Repr

/-- The `for _ in range(num_lines)` loop of `generate_lines`: one main line,
then (for bonus lotteries) one bonus draw per line; an exception anywhere
aborts the whole call with no partial list. -/
def linesLoop (df_l : List Row) (hasBonusCol : Bool) (profile : Profile)
    (params : PresetParams) (preset : String) (locked : List Int)
    (enforce_balance use_pairs : Bool) (combined : List (Int × Score))
    (pair_lifts : List ((Int × Int) × ℚ)) :
    Nat → Rng → Except String (List GenLine) × Rng
  | 0, g => (Except.ok [], g)
  | k + 1, g =>
    match _generate_single_line combined profile.min profile.max
        profile.numbers_per_draw params locked enforce_balance pair_lifts
        use_pairs g with
    | (none, g2) => (Except.error "IndexError", g2)
    | (some line_numbers, g2) =>
      let bonusStep : Except String (Option (List Int)) × Rng :=
        if profile.bonus then
          _generate_bonus_numbers df_l hasBonusCol profile preset params g2
        else (Except.ok none, g2)
      match bonusStep with
      | (Except.error e, g3) => (Except.error e, g3)
      | (Except.ok bonus_numbers, g3) =>
        let line : GenLine :=
          ⟨pySorted line_numbers,
            match bonus_numbers with
            | some bs => if bs.isEmpty then [] else pySorted bs
            | none => []⟩
        match linesLoop df_l hasBonusCol profile params preset locked
            enforce_balance use_pairs combined pair_lifts k g3 with
        | (Except.ok rest, g4) => (Except.ok (line :: rest), g4)
        | (Except.error e, g4) => (Except.error e, g4)

/-- `line_mode.generate_lines`: seed the generator (if a seed is given),
validate the preset, the lottery, the filtered history and the locks in
that order, build the combined table and pair lifts once, then produce
`num_lines` lines.  The returned `Rng` is the final state of the
process-wide generator (mutated even on a validation error, since Python
seeds it first). -/
def generate_lines (df : DataFrame) (lottery preset : String)
    (num_lines : Nat) (locked_numbers : List Int)
    (enforce_balance use_pairs : Bool) (seed : Option Nat) (g0 : Rng) :
    Except String (List GenLine) × Rng :=
  let g := match seed with | some s => seedRng s | none => g0
  match PRESET_PARAMS preset with
  | none => (Except.error "Unknown preset", g)
  | some params =>
    match LOTTERY_PROFILES lottery with
    | none => (Except.error "Unknown lottery", g)
    | some profile =>
      let df_l := df.rows.filter (fun r => r.lottery = lottery)
      if df_l.isEmpty then
        (Except.error "No rows found for lottery", g)
      else
        let main_combined := _build_combined_for_pool df_l profile.min profile.max preset
        let pair_lifts :=
          if use_pairs then _compute_pair_lifts df_l profile.min profile.max else []
        match _validate_locks locked_numbers profile with
        | Except.error e => (Except.error e, g)
        | Except.ok _ =>
          linesLoop df_l df.hasBonusCol profile params preset locked_numbers
            enforce_balance use_pairs main_combined pair_lifts num_lines g

/-! ## Basic lemmas about the helpers -/

lemma pyexp_pos (x : ℚ) : 0 < pyexp x := by
  unfold pyexp
  split
  · linarith
  · have hx : x < 0 := by linarith [not_le.mp (by assumption : ¬ 0 ≤ x)]
    have : (0 : ℚ) < 1 - x := by linarith
    positivity

lemma mem_dedupFirstAux {x : Int} :
    ∀ (l seen : List Int), x ∈ dedupFirstAux l seen ↔ x ∈ l ∧ x ∉ seen := by
  intro l
  induction l with
  | nil => intro seen; simp [dedupFirstAux]
  | cons y ys ih =>
    intro seen
    by_cases hy : y ∈ seen
    · rw [show dedupFirstAux (y :: ys) seen = dedupFirstAux ys seen by
        simp [dedupFirstAux, if_pos hy]]
      rw [ih seen]
      simp only [List.mem_cons]
      constructor
      · rintro ⟨hm, hn⟩; exact ⟨Or.inr hm, hn⟩
      · rintro ⟨hm | hm, hn⟩
        · exact absurd (hm ▸ hy) hn
        · exact ⟨hm, hn⟩
    · rw [show dedupFirstAux (y :: ys) seen = y :: dedupFirstAux ys (y :: seen) by
        simp [dedupFirstAux, if_neg hy]]
      simp only [List.mem_cons, ih (y :: seen), List.mem_cons]
      by_cases hxy : x = y
      · subst hxy; tauto
      · tauto

lemma mem_dedupFirst {x : Int} {l : List Int} : x ∈ dedupFirst l ↔ x ∈ l := by
  simp [dedupFirst, mem_dedupFirstAux]

lemma nodup_dedupFirstAux : ∀ (l seen : List Int), (dedupFirstAux l seen).Nodup := by
  intro l
  induction l with
  | nil => intro seen; simp [dedupFirstAux]
  | cons y ys ih =>
    intro seen
    by_cases hy : y ∈ seen
    · simpa [dedupFirstAux, if_pos hy] using ih seen
    · rw [show dedupFirstAux (y :: ys) seen = y :: dedupFirstAux ys (y :: seen) by
        simp [dedupFirstAux, if_neg hy]]
      refine List.nodup_cons.mpr ⟨?_, ih (y :: seen)⟩
      intro hmem
      exact absurd (List.mem_cons_self y seen) (mem_dedupFirstAux ys (y :: seen) |>.mp hmem).2

lemma nodup_dedupFirst (l : List Int) : (dedupFirst l).Nodup :=
  nodup_dedupFirstAux l []

lemma dedupFirstAux_sublist : ∀ (l seen : List Int), (dedupFirstAux l seen).Sublist l := by
  intro l
  induction l with
  | nil => intro seen; simp [dedupFirstAux]
  | cons y ys ih =>
    intro seen
    by_cases hy : y ∈ seen
    · simpa [dedupFirstAux, if_pos hy] using (ih seen).trans (List.sublist_cons_self y ys)
    · simpa [dedupFirstAux, if_neg hy] using List.Sublist.cons₂ y (ih (y :: seen))

lemma dedupFirstAux_eq_self :
    ∀ (l seen : List Int), l.Nodup → (∀ x ∈ l, x ∉ seen) → dedupFirstAux l seen = l := by
  intro l
  induction l with
  | nil => intro seen _ _; rfl
  | cons y ys ih =>
    intro seen hnd hsub
    have hy : y ∉ seen := hsub y (List.mem_cons_self y ys)
    rw [show dedupFirstAux (y :: ys) seen = y :: dedupFirstAux ys (y :: seen) by
      simp [dedupFirstAux, if_neg hy]]
    congr 1
    refine ih (y :: seen) (List.nodup_cons.mp hnd).2 ?_
    intro x hx hmem
    rcases List.mem_cons.mp hmem with rfl | hxs
    · exact (List.nodup_cons.mp hnd).1 hx
    · exact hsub x (List.mem_cons_of_mem _ hx) hxs

lemma dedupFirst_eq_self {l : List Int} (h : l.Nodup) : dedupFirst l = l :=
  dedupFirstAux_eq_self l [] h (by simp)

lemma length_dedupFirst_eq_iff {l : List Int} :
    (dedupFirst l).length = l.length ↔ l.Nodup := by
  constructor
  · intro h
    have := (dedupFirstAux_sublist l []).eq_of_length h
    exact this ▸ nodup_dedupFirst l
  · intro h; rw [dedupFirst_eq_self h]

lemma mem_rangeList {lo hi n : Int} : n ∈ rangeList lo hi ↔ lo ≤ n ∧ n ≤ hi := by
  simp only [rangeList, List.mem_map, List.mem_range]
  constructor
  · rintro ⟨i, hi2, rfl⟩
    omega
  · rintro ⟨h1, h2⟩
    exact ⟨(n - lo).toNat, by omega, by omega⟩

lemma nodup_rangeList (lo hi : Int) : (rangeList lo hi).Nodup := by
  unfold rangeList
  refine List.Nodup.map ?_ (List.nodup_range _)
  intro a b hab
  simp only at hab
  omega

lemma length_rangeList (lo hi : Int) :
    (rangeList lo hi).length = (hi + 1 - lo).toNat := by
  rw [rangeList, List.length_map, List.length_range]

lemma sortedUnique_perm (l : List Int) :
    List.Perm (sortedUnique l) (dedupFirst l) :=
  List.perm_insertionSort _ _

lemma sortedUnique_pairwise_lt (l : List Int) :
    (sortedUnique l).Pairwise (· < ·) := by
  have hsorted : (sortedUnique l).Pairwise (· ≤ ·) := by
    simpa [sortedUnique, pySorted, List.Sorted] using
      List.sorted_insertionSort (fun a b : Int => a ≤ b) (dedupFirst l)
  have hnd : (sortedUnique l).Nodup :=
    (sortedUnique_perm l).nodup_iff.mpr (nodup_dedupFirst l)
  exact (hsorted.and hnd).imp (fun h => lt_of_le_of_ne h.1 h.2)

lemma mem_sortedUnique {x : Int} {l : List Int} : x ∈ sortedUnique l ↔ x ∈ l := by
  rw [(sortedUnique_perm l).mem_iff, mem_dedupFirst]

lemma pairsOf_rel {R : Int → Int → Prop} :
    ∀ {l : List Int}, l.Pairwise R → ∀ p ∈ pairsOf l, R p.1 p.2 := by
  intro l
  induction l with
  | nil => intro _ p hp; simp [pairsOf] at hp
  | cons x xs ih =>
    intro hpw p hp
    rcases List.pairwise_cons.mp hpw with ⟨hx, hxs⟩
    rcases List.mem_append.mp hp with hp1 | hp2
    · rcases List.mem_map.mp hp1 with ⟨y, hy, rfl⟩
      exact hx y hy
    · exact ih hxs p hp2

lemma pairsOf_mem_both {a b : Int} :
    ∀ {l : List Int}, (a, b) ∈ pairsOf l → a ∈ l ∧ b ∈ l := by
  intro l
  induction l with
  | nil => intro hp; simp [pairsOf] at hp
  | cons x xs ih =>
    intro hp
    rcases List.mem_append.mp hp with hp1 | hp2
    · rcases List.mem_map.mp hp1 with ⟨y, hy, heq⟩
      cases heq
      exact ⟨List.mem_cons_self _ _, List.mem_cons_of_mem _ hy⟩
    · exact ⟨List.mem_cons_of_mem _ (ih hp2).1, List.mem_cons_of_mem _ (ih hp2).2⟩

/-! ## Lemmas about the weighted sampler -/

lemma lookup?_mem {κ α : Type} [DecidableEq κ] {d : List (κ × α)} {k : κ} {v : α}
    (h : lookup? d k = some v) : (k, v) ∈ d := by
  unfold lookup? at h
  rcases Option.map_eq_some'.mp h with ⟨e, he, hv⟩
  have hk : e.1 = k := by simpa using List.find?_some he
  have := List.mem_of_find?_eq_some he
  cases e
  simp only at hk hv
  subst hk
  subst hv
  exact this

lemma cumulativePick_mem {c : Int} :
    ∀ (l : List (Int × ℚ)) (u r : ℚ), cumulativePick l u r = some c → ∃ w, (c, w) ∈ l := by
  intro l
  induction l with
  | nil => intro u r h; simp [cumulativePick] at h
  | cons e rest ih =>
    intro u r h
    rcases e with ⟨x, w⟩
    rw [cumulativePick] at h
    split at h
    · exact ⟨w, by simpa using Or.inl (by cases h; rfl)⟩
    · rcases ih (u + w) r h with ⟨w2, hw2⟩
      exact ⟨w2, List.mem_cons_of_mem _ hw2⟩

lemma wcnr_mem {cands : List Int} {weights : List ℚ} {g g2 : Rng} {c : Int}
    (h : _weighted_choice_no_replace cands weights g = (some c, g2)) : c ∈ cands := by
  rw [_weighted_choice_no_replace] at h
  by_cases ht : weights.sum ≤ 0
  · rw [if_pos ht] at h
    simp only [Prod.mk.injEq] at h
    exact List.get?_mem h.1
  · rw [if_neg ht] at h
    rcases hcp : cumulativePick (cands.zip weights) 0 ((randFloat g).1 * weights.sum) with _ | x
    · rw [hcp] at h
      simp only [Prod.mk.injEq] at h
      have hmem : c ∈ cands.getLast? := Option.mem_def.mpr h.1
      rcases List.mem_getLast?_eq_getLast hmem with ⟨hne, rfl⟩
      exact List.getLast_mem hne
    · rw [hcp] at h
      simp only [Prod.mk.injEq] at h
      obtain rfl : x = c := by simpa using h.1
      rcases cumulativePick_mem _ _ _ hcp with ⟨w, hw⟩
      exact (List.of_mem_zip hw).1

lemma getLast?_eq_some_getLast {l : List Int} (h : l ≠ []) :
    l.getLast? = some (l.getLast h) := List.getLast?_eq_getLast l h

lemma wcnr_some {cands : List Int} (weights : List ℚ) (g : Rng) (h : cands ≠ []) :
    ∃ c g2, _weighted_choice_no_replace cands weights g = (some c, g2) ∧ c ∈ cands := by
  rw [_weighted_choice_no_replace]
  by_cases ht : weights.sum ≤ 0
  · rw [if_pos ht]
    have hlen : 0 < cands.length := List.length_pos.mpr h
    have hlt : (randBelow cands.length g).1 < cands.length := by
      unfold randBelow
      exact Nat.mod_lt _ hlen
    refine ⟨cands.get ⟨_, hlt⟩, (randBelow cands.length g).2, ?_, List.get_mem _ _ _⟩
    rw [List.get?_eq_get hlt]
  · rw [if_neg ht]
    rcases hcp : cumulativePick (cands.zip weights) 0 ((randFloat g).1 * weights.sum) with _ | x
    · refine ⟨cands.getLast h, (randFloat g).2, ?_, List.getLast_mem _⟩
      show (cands.getLast?, (randFloat g).2) = _
      rw [getLast?_eq_some_getLast h]
    · refine ⟨x, (randFloat g).2, rfl, ?_⟩
      rcases cumulativePick_mem _ _ _ hcp with ⟨w, hw⟩
      exact (List.of_mem_zip hw).1

/-- Soundness of the inner sampling loop: whatever it returns extends the
initial selection by exactly `fuel` picks, all drawn from the remaining
pool, preserving distinctness. -/
lemma pickN_sound (combined : List (Int × Score)) (params : PresetParams)
    (pair_lifts : List ((Int × Int) × ℚ)) (use_pairs : Bool) :
    ∀ (fuel : Nat) (selected remaining : List Int) (g : Rng) (sel : List Int) (g2 : Rng),
    pickN combined params pair_lifts use_pairs fuel selected remaining g = (some sel, g2) →
    remaining.Nodup → (∀ x ∈ selected, x ∉ remaining) → selected.Nodup →
    sel.length = selected.length + fuel ∧ sel.Nodup ∧
      (∀ x ∈ sel, x ∈ selected ∨ x ∈ remaining) ∧ (∀ x ∈ selected, x ∈ sel) := by
  intro fuel
  induction fuel with
  | zero =>
    intro selected remaining g sel g2 h _ _ hsel
    rw [pickN] at h
    simp only [Prod.mk.injEq] at h
    obtain rfl : selected = sel := by simpa using h.1
    exact ⟨by simp, hsel, fun x hx => Or.inl hx, fun x hx => hx⟩
  | succ n ih =>
    intro selected remaining g sel g2 h hrem hdisj hsel
    rw [pickN] at h
    rcases hw : _weighted_choice_no_replace remaining
        (_scores_to_weights combined remaining params
          (if use_pairs ∧ ¬ selected.isEmpty then
            _pair_boosts_from_selected selected remaining pair_lifts params
          else [])) g with ⟨o, g3⟩
    rw [hw] at h
    rcases o with _ | pick
    · simp at h
    · have hpickmem : pick ∈ remaining := wcnr_mem hw
      have h2 := ih (selected ++ [pick]) (remaining.erase pick) g3 sel g2 h
        (hrem.erase pick)
        (by
          intro x hx
          rcases List.mem_append.mp hx with hx1 | hx2
          · intro hc
            exact hdisj x hx1 (List.mem_of_mem_erase hc)
          · obtain rfl : x = pick := by simpa using hx2
            exact hrem.not_mem_erase)
        (by
          refine List.Nodup.append hsel (by simp) ?_
          intro x hx1 hx2
          obtain rfl : x = pick := by simpa using hx2
          exact hdisj x hx1 hpickmem)
      refine ⟨by have hl := h2.1; simp at hl; omega, h2.2.1, ?_, ?_⟩
      · intro x hx
        rcases h2.2.2.1 x hx with hx1 | hx2
        · rcases List.mem_append.mp hx1 with hx3 | hx4
          · exact Or.inl hx3
          · obtain rfl : x = pick := by simpa using hx4
            exact Or.inr hpickmem
        · exact Or.inr (List.mem_of_mem_erase hx2)
      · intro x hx
        exact h2.2.2.2 x (List.mem_append.mpr (Or.inl hx))

/-- Completeness of the inner sampling loop: with enough candidates left it
always succeeds. -/
lemma pickN_complete (combined : List (Int × Score)) (params : PresetParams)
    (pair_lifts : List ((Int × Int) × ℚ)) (use_pairs : Bool) :
    ∀ (fuel : Nat) (selected remaining : List Int) (g : Rng),
    fuel ≤ remaining.length →
    ∃ sel g2, pickN combined params pair_lifts use_pairs fuel selected remaining g
      = (some sel, g2) := by
  intro fuel
  induction fuel with
  | zero =>
    intro selected remaining g _
    exact ⟨selected, g, rfl⟩
  | succ n ih =>
    intro selected remaining g hlen
    have hne : remaining ≠ [] := by
      intro hc
      rw [hc] at hlen
      simp at hlen
    rw [pickN]
    rcases wcnr_some (_scores_to_weights combined remaining params
        (if use_pairs ∧ ¬ selected.isEmpty then
          _pair_boosts_from_selected selected remaining pair_lifts params
        else [])) g hne with ⟨pick, g3, hw, hmem⟩
    rw [hw]
    refine ih (selected ++ [pick]) (remaining.erase pick) g3 ?_
    have := List.length_erase_add_one hmem
    omega

/-! ## Lemmas about the retry loop, locks and profiles -/

lemma nodup_filter_not_mem (mn mx : Int) (s : List Int) :
    ((rangeList mn mx).filter (fun n => ¬ n ∈ s)).Nodup :=
  (nodup_rangeList mn mx).filter _

lemma disjoint_filter_not_mem (mn mx : Int) (s : List Int) :
    ∀ x ∈ s, x ∉ (rangeList mn mx).filter (fun n => ¬ n ∈ s) := by
  intro x hx hc
  have := (List.mem_filter.mp hc).2
  simp only [decide_eq_true_eq] at this
  exact this hx

/-- A duplicate-free list has at most `s.length` elements belonging to `s`. -/
lemma length_filter_mem_le (l s : List Int) (h : l.Nodup) :
    (l.filter (fun n => n ∈ s)).length ≤ s.length := by
  classical
  have hnd : (l.filter (fun n => n ∈ s)).Nodup := h.filter _
  have hsub : ∀ x ∈ l.filter (fun n => n ∈ s), x ∈ s := by
    intro x hx
    simpa using (List.mem_filter.mp hx).2
  calc (l.filter (fun n => n ∈ s)).length
      = (l.filter (fun n => n ∈ s)).toFinset.card := (List.toFinset_card_of_nodup hnd).symm
    _ ≤ s.toFinset.card := Finset.card_le_card (fun x hx => by
        simp only [List.mem_toFinset] at hx ⊢
        exact hsub x hx)
    _ ≤ s.length := s.toFinset_card_le

/-- The filtered pool loses at most one element per element of `s`. -/
lemma length_filter_not_mem_ge (mn mx : Int) (s : List Int) :
    (rangeList mn mx).length ≤
      ((rangeList mn mx).filter (fun n => ¬ n ∈ s)).length + s.length := by
  classical
  have hsplit := List.length_eq_length_filter_add (l := rangeList mn mx)
    (fun n => decide (¬ n ∈ s))
  have hcongr : (rangeList mn mx).filter (fun n => !(decide (¬ n ∈ s))) =
      (rangeList mn mx).filter (fun n => n ∈ s) := by
    apply List.filter_congr
    intro x _
    by_cases hx : x ∈ s <;> simp [hx]
  rw [hcongr] at hsplit
  have hle := length_filter_mem_le (rangeList mn mx) s (nodup_rangeList mn mx)
  omega

/-- Soundness of one attempt loop run: any returned selection has exactly
`count` elements (when the deduplicated locks fit into the line), is
duplicate-free, contains every lock, and stays inside `locked ∪ [mn, mx]`. -/
lemma singleLineAttempts_sound (combined : List (Int × Score)) (mn mx : Int)
    (count : Nat) (params : PresetParams) (locked : List Int)
    (enforce_balance : Bool) (pair_lifts : List ((Int × Int) × ℚ))
    (use_pairs : Bool) (hfit : (dedupFirst locked).length ≤ count) :
    ∀ (fuel : Nat) (g : Rng) (sel : List Int) (g2 : Rng),
    singleLineAttempts combined mn mx count params locked enforce_balance
      pair_lifts use_pairs fuel g = (some sel, g2) →
    sel.length = count ∧ sel.Nodup ∧
      (∀ x ∈ sel, x ∈ locked ∨ (mn ≤ x ∧ x ≤ mx)) ∧ (∀ x ∈ locked, x ∈ sel) := by
  intro fuel
  induction fuel with
  | zero =>
    intro g sel g2 h
    rw [singleLineAttempts] at h
    simp at h
  | succ n ih =>
    intro g sel g2 h
    rw [singleLineAttempts] at h
    rcases hp : pickN combined params pair_lifts use_pairs
        (count - (dedupFirst locked).length) (dedupFirst locked)
        ((rangeList mn mx).filter (fun n => ¬ n ∈ dedupFirst locked)) g with ⟨o, g3⟩
    rw [hp] at h
    rcases o with _ | sel0
    · simp at h
    · have hs := pickN_sound combined params pair_lifts use_pairs _ _ _ _ _ _ hp
        (nodup_filter_not_mem mn mx _) (disjoint_filter_not_mem mn mx _)
        (nodup_dedupFirst locked)
      have hprops : sel0.length = count ∧ sel0.Nodup ∧
          (∀ x ∈ sel0, x ∈ locked ∨ (mn ≤ x ∧ x ≤ mx)) ∧ (∀ x ∈ locked, x ∈ sel0) := by
        refine ⟨by have := hs.1; omega, hs.2.1, ?_, ?_⟩
        · intro x hx
          rcases hs.2.2.1 x hx with hx1 | hx2
          · exact Or.inl (mem_dedupFirst.mp hx1)
          · exact Or.inr (mem_rangeList.mp (List.mem_filter.mp hx2).1)
        · intro x hx
          exact hs.2.2.2 x (mem_dedupFirst.mpr hx)
      dsimp only at h
      by_cases hb : enforce_balance
      · rw [if_pos hb] at h
        by_cases hbal : _passes_balance sel0 mn mx
        · rw [if_pos hbal] at h
          simp only [Prod.mk.injEq] at h
          obtain rfl : sel0 = sel := by simpa using h.1
          exact hprops
        · rw [if_neg hbal] at h
          by_cases hn : n = 0
          · rw [if_pos hn] at h
            simp only [Prod.mk.injEq] at h
            obtain rfl : sel0 = sel := by simpa using h.1
            exact hprops
          · rw [if_neg hn] at h
            exact ih g3 sel g2 h
      · rw [if_neg hb] at h
        simp only [Prod.mk.injEq] at h
        obtain rfl : sel0 = sel := by simpa using h.1
        exact hprops

/-- Completeness of the attempt loop: with a positive budget, locks that
fit, and a large enough pool, it always returns some selection. -/
lemma singleLineAttempts_complete (combined : List (Int × Score)) (mn mx : Int)
    (count : Nat) (params : PresetParams) (locked : List Int)
    (enforce_balance : Bool) (pair_lifts : List ((Int × Int) × ℚ))
    (use_pairs : Bool)
    (hpool : count - (dedupFirst locked).length ≤
      ((rangeList mn mx).filter (fun n => ¬ n ∈ dedupFirst locked)).length) :
    ∀ (fuel : Nat) (g : Rng), fuel ≠ 0 →
    ∃ sel g2, singleLineAttempts combined mn mx count params locked
      enforce_balance pair_lifts use_pairs fuel g = (some sel, g2) := by
  intro fuel
  induction fuel with
  | zero => intro g h0; exact absurd rfl h0
  | succ n ih =>
    intro g _
    rw [singleLineAttempts]
    rcases pickN_complete combined params pair_lifts use_pairs
        (count - (dedupFirst locked).length) (dedupFirst locked)
        ((rangeList mn mx).filter (fun n => ¬ n ∈ dedupFirst locked)) g hpool
      with ⟨sel0, g3, hp⟩
    rw [hp]
    dsimp only
    by_cases hb : enforce_balance
    · rw [if_pos hb]
      by_cases hbal : _passes_balance sel0 mn mx
      · rw [if_pos hbal]
        exact ⟨sel0, g3, rfl⟩
      · rw [if_neg hbal]
        by_cases hn : n = 0
        · rw [if_pos hn]
          exact ⟨sel0, g3, rfl⟩
        · rw [if_neg hn]
          exact ih g3 hn
    · rw [if_neg hb]
      exact ⟨sel0, g3, rfl⟩

lemma validate_locks_ok_iff (locked : List Int) (profile : Profile) :
    _validate_locks locked profile = Except.ok () ↔
      locked.Nodup ∧ locked.length ≤ profile.numbers_per_draw ∧
        ∀ x ∈ locked, profile.min ≤ x ∧ x ≤ profile.max := by
  unfold _validate_locks
  by_cases hd : (dedupFirst locked).length ≠ locked.length
  · rw [if_pos hd]
    constructor
    · intro h; simp at h
    · intro hP; exact absurd (length_dedupFirst_eq_iff.mpr hP.1) hd
  · rw [if_neg hd]
    have hnd : locked.Nodup := length_dedupFirst_eq_iff.mp (not_not.mp hd)
    by_cases hlen : locked.length > profile.numbers_per_draw
    · rw [if_pos hlen]
      constructor
      · intro h; simp at h
      · intro hP; exfalso; have := hP.2.1; omega
    · rw [if_neg hlen]
      rcases hf : locked.find? (fun n => ¬ (profile.min ≤ n ∧ n ≤ profile.max)) with _ | x
      · constructor
        · intro _
          refine ⟨hnd, by omega, ?_⟩
          intro x hx
          have := List.find?_eq_none.mp hf x hx
          simpa using this
        · intro _; rfl
      · constructor
        · intro h; simp at h
        · intro hP
          exfalso
          have hmem := List.mem_of_find?_eq_some hf
          have hpred := List.find?_some hf
          simp only [decide_eq_true_eq] at hpred
          exact hpred (hP.2.2 x hmem)

lemma pySorted_perm (l : List Int) : List.Perm (pySorted l) l :=
  List.perm_insertionSort _ _

lemma pySorted_length (l : List Int) : (pySorted l).length = l.length :=
  (pySorted_perm l).length_eq

lemma pySorted_nodup {l : List Int} (h : l.Nodup) : (pySorted l).Nodup :=
  (pySorted_perm l).nodup_iff.mpr h

lemma pySorted_mem {x : Int} {l : List Int} : x ∈ pySorted l ↔ x ∈ l :=
  (pySorted_perm l).mem_iff

/-- Every profile in the registry has a main pool at least as large as its
draw size, and a bonus pool at least as large as its bonus count. -/
lemma profile_pool_facts {lottery : String} {p : Profile}
    (h : LOTTERY_PROFILES lottery = some p) :
    p.numbers_per_draw ≤ (p.max + 1 - p.min).toNat ∧
      p.bonus_count ≤ (p.bonus_max + 1 - p.bonus_min).toNat := by
  unfold LOTTERY_PROFILES at h
  split_ifs at h <;> cases h <;> simp

/-- With valid locks the attempt loop's pool is large enough. -/
lemma pool_large_enough {p : Profile} (locked : List Int)
    (hnd : locked.Nodup) (hlen : locked.length ≤ p.numbers_per_draw)
    (hpool : p.numbers_per_draw ≤ (p.max + 1 - p.min).toNat) :
    p.numbers_per_draw - (dedupFirst locked).length ≤
      ((rangeList p.min p.max).filter (fun n => ¬ n ∈ dedupFirst locked)).length := by
  rw [dedupFirst_eq_self hnd]
  have h1 := length_filter_not_mem_ge p.min p.max locked
  have h2 := length_rangeList p.min p.max
  omega

/-- The bonus sampler never raises when the bonus pool is at least as large
as the bonus count (whatever it returns — a list from the uniform fallback,
or Python's `None` from the missing-`return` branch). -/
lemma bonus_numbers_ok (df_l : List Row) (hasBonusCol : Bool) (p : Profile)
    (preset : String) (params : PresetParams) (g : Rng)
    (hpool : p.bonus_count ≤ ((rangeList p.bonus_min p.bonus_max)).length) :
    ∃ v g2, _generate_bonus_numbers df_l hasBonusCol p preset params g =
      (Except.ok v, g2) := by
  rw [_generate_bonus_numbers]
  by_cases hb : hasBonusCol
  · simp only [hb]
    rw [if_neg (by simp)]
    by_cases hsum : ((df_l.map (fun r : Row => { r with
        numbers := r.bonus.getD [] })).map (fun r => r.numbers.length)).sum = 0
    · rw [if_pos hsum]
      exact ⟨_, _, rfl⟩
    · rw [if_neg hsum]
      rcases pickN_complete
          (_build_combined_for_pool (df_l.map (fun r => { r with numbers := r.bonus.getD [] }))
            p.bonus_min p.bonus_max preset) params [] false p.bonus_count []
          (rangeList p.bonus_min p.bonus_max) g hpool with ⟨sel, g2, hp⟩
      rw [hp]
      exact ⟨none, g2, rfl⟩
  · simp only [hb]
    rw [if_pos (by simp)]
    exact ⟨_, _, rfl⟩

/-- Soundness of the per-line loop: every produced line's main numbers are
the sorted output of one successful single-line generation. -/
lemma linesLoop_sound (df_l : List Row) (hasBonusCol : Bool) (p : Profile)
    (params : PresetParams) (preset : String) (locked : List Int)
    (eb up : Bool) (combined : List (Int × Score))
    (plifts : List ((Int × Int) × ℚ)) :
    ∀ (k : Nat) (g : Rng) (res : List GenLine) (g2 : Rng),
    linesLoop df_l hasBonusCol p params preset locked eb up combined plifts k g
      = (Except.ok res, g2) →
    ∀ line ∈ res, ∃ g3 g4 sel,
      _generate_single_line combined p.min p.max p.numbers_per_draw params
        locked eb plifts up g3 = (some sel, g4) ∧ line.numbers = pySorted sel := by
  intro k
  induction k with
  | zero =>
    intro g res g2 h line hline
    rw [linesLoop] at h
    simp only [Prod.mk.injEq] at h
    obtain rfl : ([] : List GenLine) = res := by simpa using h.1
    simp at hline
  | succ n ih =>
    intro g res g2 h line hline
    rw [linesLoop] at h
    rcases hsl : _generate_single_line combined p.min p.max p.numbers_per_draw
        params locked eb plifts up g with ⟨o, g3⟩
    rw [hsl] at h
    rcases o with _ | sel
    · simp at h
    · dsimp only at h
      rcases hbs : (if p.bonus = true then
          _generate_bonus_numbers df_l hasBonusCol p preset params g3
        else (Except.ok none, g3)) with ⟨bres, g4⟩
      rw [hbs] at h
      rcases bres with e | bopt
      · simp at h
      · dsimp only at h
        rcases hrest : linesLoop df_l hasBonusCol p params preset locked eb up
            combined plifts n g4 with ⟨rres, g5⟩
        rw [hrest] at h
        rcases rres with e | rest
        · simp at h
        · dsimp only at h
          simp only [Prod.mk.injEq] at h
          obtain rfl : _ :: rest = res := by
            simpa using h.1
          rcases List.mem_cons.mp hline with rfl | htail
          · exact ⟨g, g3, sel, hsl, rfl⟩
          · exact ih g4 rest g5 hrest line htail

/-- Completeness of the per-line loop under the pool-size facts. -/
lemma linesLoop_complete (df_l : List Row) (hasBonusCol : Bool) (p : Profile)
    (params : PresetParams) (preset : String) (locked : List Int)
    (eb up : Bool) (combined : List (Int × Score))
    (plifts : List ((Int × Int) × ℚ))
    (hpool : p.numbers_per_draw - (dedupFirst locked).length ≤
      ((rangeList p.min p.max).filter (fun n => ¬ n ∈ dedupFirst locked)).length)
    (hbpool : p.bonus_count ≤ ((rangeList p.bonus_min p.bonus_max)).length) :
    ∀ (k : Nat) (g : Rng),
    ∃ res g2, linesLoop df_l hasBonusCol p params preset locked eb up combined
      plifts k g = (Except.ok res, g2) := by
  intro k
  induction k with
  | zero => intro g; exact ⟨[], g, rfl⟩
  | succ n ih =>
    intro g
    rw [linesLoop]
    rcases singleLineAttempts_complete combined p.min p.max p.numbers_per_draw
        params locked eb plifts up hpool 200 g (by omega) with ⟨sel, g3, hsl⟩
    rw [show _generate_single_line combined p.min p.max p.numbers_per_draw
        params locked eb plifts up g = (some sel, g3) from hsl]
    dsimp only
    by_cases hbon : p.bonus = true
    · rcases bonus_numbers_ok df_l hasBonusCol p preset params g3 hbpool
        with ⟨v, g4, hbv⟩
      rw [if_pos hbon, hbv]
      dsimp only
      rcases ih g4 with ⟨rest, g5, hrest⟩
      rw [hrest]
      exact ⟨_, g5, rfl⟩
    · rw [if_neg hbon]
      dsimp only
      rcases ih g3 with ⟨rest, g5, hrest⟩
      rw [hrest]
      exact ⟨_, g5, rfl⟩

/-! ## Claim theorems -/

/-- C5: the single-line sampler terminates after at most 200 attempts (the
loop is structurally bounded by the budget of 200 embedded in
`_generate_single_line`) and always returns a selection of exactly `count`
numbers, for every preset parameter record, every combined-score table and
every pair-lift table — including when `enforce_balance` is on and no
attempt ever passes the balance check, in which case the last attempt's
selection is returned instead of an error or an endless loop.  The two
hypotheses say the deduplicated locks fit into the line and the pool
`[min_n, max_n]` minus the locks is big enough, which `generate_lines`
guarantees for every registry profile. -/
theorem generate_single_line_total (combined : List (Int × Score))
    (min_n max_n : Int) (count : Nat) (params : PresetParams)
    (locked : List Int) (enforce_balance : Bool)
    (pair_lifts : List ((Int × Int) × ℚ)) (use_pairs : Bool) (g : Rng)
    (hfit : (dedupFirst locked).length ≤ count)
    (hpool : count - (dedupFirst locked).length ≤
      ((rangeList min_n max_n).filter (fun n => ¬ n ∈ dedupFirst locked)).length) :
    ∃ sel g2,
      _generate_single_line combined min_n max_n count params locked
        enforce_balance pair_lifts use_pairs g = (some sel, g2) ∧
      sel.length = count := by
  rcases singleLineAttempts_complete combined min_n max_n count params locked
      enforce_balance pair_lifts use_pairs hpool 200 g (by omega)
    with ⟨sel, g2, h⟩
  refine ⟨sel, g2, h, ?_⟩
  exact (singleLineAttempts_sound combined min_n max_n count params locked
    enforce_balance pair_lifts use_pairs hfit 200 g sel g2 h).1

/-- Witness for C5: a concrete instance (empty locks, count 6 over the pool
`[1, 6]`) at which the hypotheses hold by computation and the sampler
returns a selection of length 6. -/
theorem generate_single_line_total_witness :
    ((_generate_single_line [] 1 6 6 ⟨12/10, 25/100, 35/100⟩ [] true [] false
      ⟨0⟩).1.map List.length) = some 6 := by
  rcases generate_single_line_total [] 1 6 6 ⟨12/10, 25/100, 35/100⟩ [] true
      [] false ⟨0⟩ (by decide) (by decide) with ⟨sel, g2, h, hlen⟩
  rw [h]
  simp [hlen]

/-- C7: for a fixed seed and fixed inputs, `generate_lines` is a pure
function of the seed: the state of the process-wide generator before the
call is irrelevant, so two calls with the same supplied seed, history and
parameters return identical batches (lines and bonus draws alike). -/
theorem generate_lines_deterministic (df : DataFrame) (lottery preset : String)
    (num_lines : Nat) (locked : List Int) (eb up : Bool) (s : Nat)
    (g1 g2 : Rng) :
    generate_lines df lottery preset num_lines locked eb up (some s) g1 =
      generate_lines df lottery preset num_lines locked eb up (some s) g2 := rfl

/-- C10: on a non-empty candidate list with a parallel weight list the
weighted-choice function always returns (no `IndexError` is raised — the
`none` of the embedding) and its result is a member of the candidate list:
the non-positive-total branch falls back to a uniform index into the list,
and a fallen-through cumulative scan returns the last candidate. -/
theorem weighted_choice_total_mem (candidates : List Int) (weights : List ℚ)
    (g : Rng) (hne : candidates ≠ [])
    (_hlen : weights.length = candidates.length) :
    ∃ c g2,
      _weighted_choice_no_replace candidates weights g = (some c, g2) ∧
      c ∈ candidates :=
  wcnr_some weights g hne

/-- Witness for C10 at a concrete candidate list, weight list and state:
the choice exists and is one of the candidates. -/
theorem weighted_choice_total_mem_witness :
    (_weighted_choice_no_replace [5, 7] [1/2, 1/4] ⟨0⟩).1.isSome = true ∧
    ((_weighted_choice_no_replace [5, 7] [1/2, 1/4] ⟨0⟩).1.getD 0)
      ∈ ([5, 7] : List Int) := by
  rcases weighted_choice_total_mem [5, 7] [1/2, 1/4] ⟨0⟩ (by decide)
      (by decide) with ⟨c, g2, h, hc⟩
  rw [h]
  exact ⟨rfl, hc⟩

/-- C4: whenever `generate_lines` succeeds, every line's main-number list
has exactly `numbers_per_draw` elements, all distinct, all inside the
profile's `[min, max]` range, and contains every supplied locked number. -/
theorem generate_lines_line_invariant (df : DataFrame) (lottery preset : String)
    (num_lines : Nat) (locked : List Int) (eb up : Bool) (seed : Option Nat)
    (g0 : Rng) (p : Profile) (res : List GenLine) (g2 : Rng)
    (hp : LOTTERY_PROFILES lottery = some p)
    (hres : generate_lines df lottery preset num_lines locked eb up seed g0 =
      (Except.ok res, g2)) :
    ∀ line ∈ res,
      line.numbers.length = p.numbers_per_draw ∧ line.numbers.Nodup ∧
      (∀ x ∈ line.numbers, p.min ≤ x ∧ x ≤ p.max) ∧
      (∀ x ∈ locked, x ∈ line.numbers) := by
  rw [generate_lines.eq_def] at hres
  rcases hpp : PRESET_PARAMS preset with _ | params
  · rw [hpp] at hres; simp at hres
  · rw [hpp] at hres
    dsimp only at hres
    rw [hp] at hres
    dsimp only at hres
    by_cases hemp : (df.rows.filter (fun r => r.lottery = lottery)).isEmpty
    · rw [if_pos hemp] at hres; simp at hres
    · rw [if_neg hemp] at hres
      rcases hv : _validate_locks locked p with e | u
      · rw [hv] at hres; simp at hres
      · rw [hv] at hres
        dsimp only at hres
        obtain ⟨hnd, hlen, hrange⟩ :=
          (validate_locks_ok_iff locked p).mp (by rw [hv])
        have hfit : (dedupFirst locked).length ≤ p.numbers_per_draw := by
          rw [dedupFirst_eq_self hnd]; exact hlen
        intro line hline
        rcases linesLoop_sound _ _ _ _ _ _ _ _ _ _ _ _ _ _ hres line hline
          with ⟨g3, g4, sel, hsl, hnums⟩
        have hs := singleLineAttempts_sound _ p.min p.max p.numbers_per_draw
          _ locked eb _ up hfit 200 g3 sel g4 hsl
        refine ⟨?_, ?_, ?_, ?_⟩
        · rw [hnums, pySorted_length, hs.1]
        · rw [hnums]; exact pySorted_nodup hs.2.1
        · intro x hx
          rw [hnums] at hx
          rcases hs.2.2.1 x (pySorted_mem.mp hx) with hx1 | hx2
          · exact hrange x hx1
          · exact hx2
        · intro x hx
          rw [hnums]
          exact pySorted_mem.mpr (hs.2.2.2 x hx)

/-- Witness for C4: a concrete successful call (locks fill the whole line,
so the result evaluates by `rfl`), specialized to its single output line
and the locked number 6. -/
theorem generate_lines_line_invariant_witness :
    ([1, 2, 3, 4, 5, 6] : List Int).length = 6 ∧
    ([1, 2, 3, 4, 5, 6] : List Int).Nodup ∧
    (1 ≤ (6 : Int) ∧ (6 : Int) ≤ 39) ∧ (6 : Int) ∈ ([1, 2, 3, 4, 5, 6] : List Int) := by
  have h := generate_lines_line_invariant
    ⟨[⟨"daily_million", [1, 2, 3, 4, 5, 6], none⟩], false⟩
    "daily_million" "balanced" 1 [1, 2, 3, 4, 5, 6] false false (some 5) ⟨0⟩
    ⟨1, 39, 6, false, 0, 0, 0⟩ [⟨[1, 2, 3, 4, 5, 6], []⟩] ⟨11⟩
    rfl rfl ⟨[1, 2, 3, 4, 5, 6], []⟩ (by simp)
  exact ⟨h.1, h.2.1, h.2.2.1 6 (by simp), h.2.2.2 6 (by simp)⟩

/-- C6: under the validated-history contract of §6 of the spec,
`generate_lines` succeeds if and only if the preset is known, the lottery
is in the registry, the filtered history is non-empty and the locks are
valid (duplicate-free, at most `numbers_per_draw`, inside the main range).
Equivalently, it raises exactly when one of the four preconditions fails;
the embedding raises structurally before building any line, so no partial
list is ever returned.

The hypothesis records the contract under which the Python code raises
nothing beyond its four explicit validations: every filtered row has a
non-empty `numbers` list (so the main-pool signals' `expected` frequency
is positive), and — when the frame carries a `bonus` column and the
lottery's profile has a bonus pool, i.e. exactly when the bonus-history
pipeline can run — every filtered row's bonus cell is a list with at
least one entry (so the bonus-pool signals' `expected` is positive too).
Outside this contract Python can raise `ZeroDivisionError` inside the
signal pipeline (e.g. a missing bonus cell in the first tailed row ahead
of a non-empty one) while the total ℚ embedding returns 0 scores, so such
histories are excluded here rather than silently identified. -/
theorem generate_lines_ok_iff (df : DataFrame) (lottery preset : String)
    (num_lines : Nat) (locked : List Int) (eb up : Bool) (seed : Option Nat)
    (g0 : Rng)
    (_hhist : ∀ r ∈ df.rows, r.lottery = lottery →
      r.numbers ≠ [] ∧
      (df.hasBonusCol = true →
        ((LOTTERY_PROFILES lottery).map Profile.bonus).getD false = true →
        r.bonus.getD [] ≠ [])) :
    (generate_lines df lottery preset num_lines locked eb up seed g0).1.isOk
        = true ↔
      ((PRESET_PARAMS preset).isSome = true ∧
        ∃ p, LOTTERY_PROFILES lottery = some p ∧
          df.rows.filter (fun r => r.lottery = lottery) ≠ [] ∧
          locked.Nodup ∧ locked.length ≤ p.numbers_per_draw ∧
          ∀ x ∈ locked, p.min ≤ x ∧ x ≤ p.max) := by
  rw [generate_lines.eq_def]
  rcases hpp : PRESET_PARAMS preset with _ | params
  · simp [Except.isOk, Except.toBool]
  · dsimp only
    rcases hlp : LOTTERY_PROFILES lottery with _ | p
    · simp [Except.isOk, Except.toBool]
    · dsimp only
      by_cases hemp : (df.rows.filter (fun r => r.lottery = lottery)).isEmpty
      · rw [if_pos hemp]
        constructor
        · intro h; simp [Except.isOk, Except.toBool] at h
        · rintro ⟨_, q, hq, hne, _⟩
          exact absurd (List.isEmpty_iff.mp hemp) hne
      · rw [if_neg hemp]
        rcases hv : _validate_locks locked p with e | u
        · dsimp only
          constructor
          · intro h; simp [Except.isOk, Except.toBool] at h
          · rintro ⟨_, q, hq, _, hnd, hlen, hrange⟩
            obtain rfl : p = q := Option.some.inj hq
            have := (validate_locks_ok_iff locked p).mpr ⟨hnd, hlen, hrange⟩
            rw [hv] at this
            simp at this
        · dsimp only
          obtain ⟨hnd, hlen, hrange⟩ :=
            (validate_locks_ok_iff locked p).mp (by rw [hv])
          have hfacts := profile_pool_facts hlp
          have hpool := pool_large_enough locked hnd hlen hfacts.1
          have hbpool : p.bonus_count ≤
              (rangeList p.bonus_min p.bonus_max).length := by
            rw [length_rangeList]; exact hfacts.2
          rcases linesLoop_complete (df.rows.filter (fun r => r.lottery = lottery))
              df.hasBonusCol p params preset locked eb up
              (_build_combined_for_pool
                (df.rows.filter (fun r => r.lottery = lottery)) p.min p.max preset)
              (if up then _compute_pair_lifts
                (df.rows.filter (fun r => r.lottery = lottery)) p.min p.max else [])
              hpool hbpool num_lines
              (match seed with | some s => seedRng s | none => g0)
            with ⟨res, gf, hll⟩
          rw [hll]
          constructor
          · intro _
            exact ⟨by simp, p, rfl, by simpa [List.isEmpty_iff] using hemp,
              hnd, hlen, hrange⟩
          · intro _
            simp [Except.isOk, Except.toBool]

/-- Witness for C6: a concrete call where all four preconditions hold, so
the call succeeds; the history hypothesis is discharged by computation. -/
theorem generate_lines_ok_iff_witness :
    (generate_lines ⟨[⟨"daily_million", [1, 2, 3, 4, 5, 6], none⟩], false⟩
      "daily_million" "balanced" 2 [7] true true (some 5) ⟨0⟩).1.isOk = true :=
  (generate_lines_ok_iff ⟨[⟨"daily_million", [1, 2, 3, 4, 5, 6], none⟩], false⟩
    "daily_million" "balanced" 2 [7] true true (some 5) ⟨0⟩
    (by decide)).mpr
    ⟨by decide, ⟨1, 39, 6, false, 0, 0, 0⟩, rfl, by decide, by decide,
      by decide, by decide⟩

/-- C2 (counterexample): the claim asserts that `[1,2,3,4,5,6]` over the
range `[1,49]` passes the balance checker; in fact the checker rejects it —
all six numbers lie at or below the midpoint 25, so the range-split count
is 6, outside the allowed `[2,4]`. -/
theorem passes_balance_spec_example_fails :
    _passes_balance [1, 2, 3, 4, 5, 6] 1 49 = false := by
  with_unfolding_all decide

/-- C2 (amended): over the range `[1,49]` the checker rejects
`[1,2,3,4,5,6]` (parity is fine with 3 odds, but the range-split check
fails: all six numbers are ≤ the midpoint 25, and 6 is outside `[2,4]`),
rejects `[1,3,5,7,9,11]` (parity: 6 odds, outside `[2,4]`), and accepts a
selection balanced in both respects such as `[2,13,20,27,34,45]`. -/
theorem passes_balance_examples :
    _passes_balance [1, 2, 3, 4, 5, 6] 1 49 = false ∧
    ([1, 2, 3, 4, 5, 6].filter (fun n : Int => n % 2 = 1)).length = 3 ∧
    _passes_balance [1, 3, 5, 7, 9, 11] 1 49 = false ∧
    ([1, 3, 5, 7, 9, 11].filter (fun n : Int => n % 2 = 1)).length = 6 ∧
    _passes_balance [2, 13, 20, 27, 34, 45] 1 49 = true := by
  with_unfolding_all decide

/-- C3 (counterexample): the claim asserts that an empty long-term (or
hot/cold) mapping forces an empty combined table; in fact
`combine_signals` iterates over the short-term mapping only and reads the
other two with a default of 0, so with a non-empty short-term input and
both other inputs empty the output is non-empty. -/
theorem combine_signals_empty_long_term_nonempty_output :
    combine_signals [(1, 1)] [] [] "balanced" ≠ [] := by
  with_unfolding_all decide

/-- C3 (amended): if the short-term input mapping is empty then
`combine_signals` returns an empty Combined Score Table, for every preset
and arbitrary long-term and hot/cold mappings (an empty long-term or
hot/cold mapping alone does not empty the output — it only contributes 0
to each weighted sum). -/
theorem combine_signals_empty_short_term (long_term hot_cold : List (Int × ℚ))
    (preset : String) :
    combine_signals [] long_term hot_cold preset = [] := rfl

/-- The three presets all have a blend in `(0, 1]` and a non-negative pair
strength. -/
lemma preset_params_facts {preset : String} {params : PresetParams}
    (h : PRESET_PARAMS preset = some params) :
    0 < params.randomness_blend ∧ params.randomness_blend ≤ 1 ∧
      0 ≤ params.pair_strength := by
  unfold PRESET_PARAMS at h
  split_ifs at h <;> cases h <;> norm_num

/-- C8: with boosts coming from the pair machinery (all non-negative),
every weight produced by the weight shaper is at least the preset's
`randomness_blend`, which is strictly positive for all three presets;
hence a non-empty candidate list always has a strictly positive total
weight, so the non-positive-total uniform fallback branch of the
weighted-choice function cannot fire on shaper-produced weights.  The last
conjunct shows the boost dictionaries produced by
`_pair_boosts_from_selected` are indeed non-negative whenever the lift
table is (which `_compute_pair_lifts` guarantees, its values lying in
`[0, 2]`). -/
theorem scores_to_weights_lower_bound (preset : String) (params : PresetParams)
    (combined : List (Int × Score)) (candidates : List Int)
    (pair_boosts : List (Int × ℚ))
    (hp : PRESET_PARAMS preset = some params)
    (hb : ∀ e ∈ pair_boosts, 0 ≤ e.2) :
    0 < params.randomness_blend ∧
    (∀ w ∈ _scores_to_weights combined candidates params pair_boosts,
      params.randomness_blend ≤ w ∧ 0 < w) ∧
    (candidates ≠ [] →
      ¬ (_scores_to_weights combined candidates params pair_boosts).sum ≤ 0) ∧
    (∀ (selected cands : List Int) (L : List ((Int × Int) × ℚ)),
      (∀ e ∈ L, 0 ≤ e.2) →
      ∀ e ∈ _pair_boosts_from_selected selected cands L params, 0 ≤ e.2) := by
  obtain ⟨hblend, hble, hstr⟩ := preset_params_facts hp
  have hweights : ∀ w ∈ _scores_to_weights combined candidates params pair_boosts,
      params.randomness_blend ≤ w ∧ 0 < w := by
    intro w hw
    unfold _scores_to_weights at hw
    rcases List.mem_map.mp hw with ⟨n, _, rfl⟩
    dsimp only
    have hexp : 0 < pyexp ((((lookup? combined n).getD ⟨0, 0⟩).score) *
        params.temperature) := pyexp_pos _
    have hw2 : 0 < (match lookup? pair_boosts n with
        | some b => pyexp ((((lookup? combined n).getD ⟨0, 0⟩).score) *
            params.temperature) * (1 + b)
        | none => pyexp ((((lookup? combined n).getD ⟨0, 0⟩).score) *
            params.temperature)) := by
      rcases hlk : lookup? pair_boosts n with _ | b
      · exact hexp
      · have hbnn : 0 ≤ b := hb _ (lookup?_mem hlk)
        have : (0 : ℚ) < 1 + b := by linarith
        exact mul_pos hexp this
    constructor
    · have hprod : 0 ≤ (1 - params.randomness_blend) * _ :=
        mul_nonneg (by linarith) (le_of_lt hw2)
      linarith
    · have hprod : 0 ≤ (1 - params.randomness_blend) * _ :=
        mul_nonneg (by linarith) (le_of_lt hw2)
      linarith
  refine ⟨hblend, hweights, ?_, ?_⟩
  · intro hne
    have hpos : 0 < (_scores_to_weights combined candidates params pair_boosts).sum := by
      refine List.sum_pos _ (fun x hx => (hweights x hx).2) ?_
      intro hc
      have : candidates = [] := by
        unfold _scores_to_weights at hc
        exact List.map_eq_nil_iff.mp hc
      exact hne this
    linarith
  · intro selected cands L hL e he
    unfold _pair_boosts_from_selected at he
    rcases List.mem_filterMap.mp he with ⟨c, _, hc⟩
    by_cases hpos : 0 < (selected.map (fun s =>
        (lookup? L (if s < c then (s, c) else (c, s))).getD 0)).sum
    · rw [if_pos hpos] at hc
      cases hc
      exact mul_nonneg (le_of_lt hpos) hstr
    · rw [if_neg hpos] at hc
      cases hc

/-- Witness for C8: at the balanced preset, an empty score table, the
single candidate 1 and no boosts, the total weight is not non-positive. -/
theorem scores_to_weights_lower_bound_witness :
    ¬ (_scores_to_weights [] [1] ⟨12/10, 25/100, 35/100⟩ []).sum ≤ 0 :=
  (scores_to_weights_lower_bound "balanced" ⟨12/10, 25/100, 35/100⟩ [] [1] []
    rfl (by simp)).2.2.1 (by decide)

/-- Any key present after a `dincr` either was a key before or is the
incremented key. -/
lemma dincr_key_cases {d : List ((Int × Int) × Nat)} {k : Int × Int}
    {e : (Int × Int) × Nat} (h : e ∈ dincr d k) :
    (∃ e0 ∈ d, e.1 = e0.1) ∨ e.1 = k := by
  unfold dincr at h
  split at h
  · rcases List.mem_map.mp h with ⟨e0, he0, rfl⟩
    by_cases hk : e0.1 = k
    · rw [if_pos hk]
      exact Or.inl ⟨e0, he0, rfl⟩
    · rw [if_neg hk]
      exact Or.inl ⟨e0, he0, rfl⟩
  · rcases List.mem_append.mp h with h1 | h2
    · exact Or.inl ⟨e, h1, rfl⟩
    · obtain rfl : e = (k, 1) := by simpa using h2
      exact Or.inr rfl

/-- Key invariant preservation through a `dincr` fold. -/
lemma foldl_dincr_keys (P : Int × Int → Prop) :
    ∀ (ks : List (Int × Int)) (d : List ((Int × Int) × Nat)),
    (∀ e ∈ d, P e.1) → (∀ x ∈ ks, P x) →
    ∀ e ∈ ks.foldl dincr d, P e.1 := by
  intro ks
  induction ks with
  | nil => intro d hd _ e he; exact hd e he
  | cons k ks ih =>
    intro d hd hks e he
    rw [List.foldl_cons] at he
    refine ih (dincr d k) ?_ (fun x hx => hks x (List.mem_cons_of_mem _ hx)) e he
    intro e2 he2
    rcases dincr_key_cases he2 with ⟨e0, he0, heq⟩ | heq
    · exact heq ▸ hd e0 he0
    · exact heq ▸ hks k (List.mem_cons_self _ _)

/-- Key invariant preservation through the whole `pairCounts` fold. -/
lemma pairCounts_keys (P : Int × Int → Prop) (min_n max_n : Int) :
    ∀ (rows : List Row) (d : List ((Int × Int) × Nat)),
    (∀ e ∈ d, P e.1) → (∀ r ∈ rows, ∀ x ∈ rowPairs min_n max_n r, P x) →
    ∀ e ∈ rows.foldl (fun d r => (rowPairs min_n max_n r).foldl dincr d) d,
      P e.1 := by
  intro rows
  induction rows with
  | nil => intro d hd _ e he; exact hd e he
  | cons r rows ih =>
    intro d hd hrows e he
    rw [List.foldl_cons] at he
    refine ih ((rowPairs min_n max_n r).foldl dincr d) ?_
      (fun r2 hr2 => hrows r2 (List.mem_cons_of_mem _ hr2)) e he
    exact foldl_dincr_keys P _ d hd (hrows r (List.mem_cons_self _ _))

/-- All `pairCounts` keys are canonical (`a < b`). -/
lemma pairCounts_key_lt {min_n max_n : Int} {rows : List Row}
    {e : (Int × Int) × Nat} (h : e ∈ pairCounts min_n max_n rows) :
    e.1.1 < e.1.2 := by
  refine pairCounts_keys (fun k => k.1 < k.2) min_n max_n rows [] (by simp)
    ?_ e h
  intro r _ x hx
  have hpw := sortedUnique_pairwise_lt r.numbers
  exact pairsOf_rel hpw x (List.mem_filter.mp hx).1

/-- Every `pairCounts` key was observed in some row. -/
lemma pairCounts_key_observed {min_n max_n : Int} {rows : List Row}
    {e : (Int × Int) × Nat} (h : e ∈ pairCounts min_n max_n rows) :
    ∃ r ∈ rows, e.1 ∈ rowPairs min_n max_n r := by
  refine pairCounts_keys (fun k => ∃ r ∈ rows, k ∈ rowPairs min_n max_n r)
    min_n max_n rows [] (by simp) ?_ e h
  intro r hr x hx
  exact ⟨r, hr, hx⟩

/-- The per-pair excess value always lies in `[0, 2]`. -/
lemma liftExcess_bounds (T pa pb obs : ℚ) :
    0 ≤ liftExcess T pa pb obs ∧ liftExcess T pa pb obs ≤ 2 := by
  unfold liftExcess
  constructor
  · exact le_min (le_max_left 0 _) (by norm_num)
  · exact min_le_right _ _

/-- C9: every entry of the pair lift table has a canonical key `(a, b)`
with `a < b` and a value that equals
`min(max(0, observed / (T · p(a) · p(b) + ε) − 1), 2.0)` for its observed
co-occurrence count, hence lies in `[0, 2]`; a pair of numbers never
co-observed in any draw is absent from the table; with zero draws the
table is empty; and the boost computation canonicalizes its lookups, so a
selected `s` boosts a candidate `c` exactly as a selected `c` boosts a
candidate `s`. -/
theorem pair_lifts_canonical :
    (∀ (rows : List Row) (min_n max_n : Int),
      ∀ e ∈ _compute_pair_lifts rows min_n max_n,
        e.1.1 < e.1.2 ∧ 0 ≤ e.2 ∧ e.2 ≤ 2 ∧
        ∃ obs : Nat, (e.1, obs) ∈ pairCounts min_n max_n rows ∧
          e.2 = liftExcess ((rows.length : Nat) : ℚ)
            ((indivCount rows e.1.1 : ℚ) / ((rows.length : Nat) : ℚ))
            ((indivCount rows e.1.2 : ℚ) / ((rows.length : Nat) : ℚ))
            ((obs : Nat) : ℚ)) ∧
    (∀ (rows : List Row) (min_n max_n a b : Int),
      (∀ r ∈ rows, ¬ (a ∈ r.numbers ∧ b ∈ r.numbers)) →
      lookup? (_compute_pair_lifts rows min_n max_n) (a, b) = none) ∧
    (∀ min_n max_n : Int, _compute_pair_lifts [] min_n max_n = []) ∧
    (∀ (L : List ((Int × Int) × ℚ)) (params : PresetParams) (s c : Int),
      lookup? (_pair_boosts_from_selected [s] [c] L params) c =
      lookup? (_pair_boosts_from_selected [c] [s] L params) s) := by
  refine ⟨?_, ?_, ?_, ?_⟩
  · intro rows min_n max_n e he
    rw [_compute_pair_lifts] at he
    by_cases hz : rows.length = 0
    · rw [if_pos hz] at he
      simp at he
    · rw [if_neg hz] at he
      rcases List.mem_map.mp he with ⟨e0, he0, rfl⟩
      dsimp only
      refine ⟨pairCounts_key_lt he0, (liftExcess_bounds _ _ _ _).1,
        (liftExcess_bounds _ _ _ _).2, e0.2, he0, rfl⟩
  · intro rows min_n max_n a b hno
    rw [_compute_pair_lifts]
    by_cases hz : rows.length = 0
    · rw [if_pos hz]; rfl
    · rw [if_neg hz]
      unfold lookup?
      rw [List.find?_eq_none.mpr, Option.map_none']
      intro e he
      rcases List.mem_map.mp he with ⟨e0, he0, rfl⟩
      simp only [decide_eq_true_eq]
      intro hkey
      rcases pairCounts_key_observed he0 with ⟨r, hr, hrp⟩
      have hpair : e0.1 ∈ pairsOf (sortedUnique r.numbers) :=
        (List.mem_filter.mp hrp).1
      have hboth := pairsOf_mem_both (a := e0.1.1) (b := e0.1.2)
        (by simpa using hpair)
      rw [hkey] at hboth
      exact hno r hr ⟨mem_sortedUnique.mp hboth.1, mem_sortedUnique.mp hboth.2⟩
  · intro min_n max_n; rfl
  · intro L params s c
    have hkey : (if s < c then (s, c) else (c, s)) =
        (if c < s then (c, s) else (s, c)) := by
      rcases lt_trichotomy s c with h | h | h
      · rw [if_pos h, if_neg (by omega)]
      · subst h; simp
      · rw [if_neg (by omega), if_pos h]
    unfold _pair_boosts_from_selected
    simp only [List.filterMap_cons, List.filterMap_nil, List.map_cons,
      List.map_nil, List.sum_cons, List.sum_nil, add_zero, hkey]
    by_cases hpos :
        0 < (lookup? L (if c < s then (c, s) else (s, c))).getD 0
    · rw [if_pos hpos, if_pos hpos]
      simp [lookup?]
    · rw [if_neg hpos, if_neg hpos]
      rfl

/-- Witness for C9: a pair never co-observed in a concrete history is
absent from its lift table. -/
theorem pair_lifts_canonical_witness :
    lookup? (_compute_pair_lifts [⟨"x", [1, 2, 3], none⟩] 1 10) (5, 7) =
      none :=
  pair_lifts_canonical.2.1 [⟨"x", [1, 2, 3], none⟩] 1 10 5 7 (by decide)

set_option maxRecDepth 8000 in
/-- C1 (code bug): on a history that does have a `bonus` column with a
non-empty bonus entry, the bonus sampler takes the bonus-history branch,
runs the combiner pipeline and the without-replacement sampling loop — and
then falls off the end of the Python function, because the loop is not
followed by `return selected`.  The function therefore returns `None`
(despite its `-> List[int]` annotation), and `generate_lines` renders the
line's bonus field as the empty list instead of `bonus_count = 2` distinct
values in `[1, 12]`: evaluated on a concrete EuroMillions history, the
bonus sampler returns `None` and the generated line's bonus field is
`[]`. -/
theorem generate_bonus_numbers_returns_none_on_history :
    (_generate_bonus_numbers [⟨"euromillions", [1, 2, 3, 4, 5], some [3, 7]⟩]
      true ⟨1, 50, 5, true, 1, 12, 2⟩ "balanced" ⟨12/10, 25/100, 35/100⟩
      ⟨0⟩).1 = Except.ok none ∧
    (generate_lines ⟨[⟨"euromillions", [1, 2, 3, 4, 5], some [3, 7]⟩], true⟩
      "euromillions" "balanced" 1 [1, 2, 3, 4, 5] false false (some 0)
      ⟨0⟩).1 = Except.ok [⟨[1, 2, 3, 4, 5], []⟩] := by
  constructor
  · with_unfolding_all rfl
  · with_unfolding_all rfl

end Lotto
